import Mathlib

/-!
Verification of `string_similarity_helpers.py`: n-gram vectorization,
Jaccard and cosine similarity over count vectors, and best-match selection.

A Python `dict`/`Counter` count vector is modelled as a finite set of string
keys together with the integer count stored at each key; Python `float`
arithmetic is modelled exactly, over `ℚ` for `jaccard_index` (a quotient of
two integers) and over `ℝ` for `cosine_similar` (which takes square roots).
-/

/-- A count vector: the key set of the dictionary and the count stored at
each key.  Values at strings outside `keys` are never read by the code. -/
structure CountVec where
  keys : Finset String
  val : String → ℤ

/-- Python `jaccard_index(vec1, vec2)`: the number of shared keys divided by
the number of keys in the union, and `0.0` when the union is empty. -/
def jaccard_index (vec1 vec2 : CountVec) : ℚ :=
  let numerator := (vec1.keys ∩ vec2.keys).card
  let denominator := (vec1.keys ∪ vec2.keys).card
  if denominator = 0 then 0 else (numerator : ℚ) / (denominator : ℚ)

open Classical in
/-- Python `cosine_similar(vec1, vec2)`: the dot product over shared keys
divided by the product of the Euclidean norms, `0.0` when that product is
zero. -/
noncomputable def cosine_similar (vec1 vec2 : CountVec) : ℝ :=
  let numerator : ℝ := ∑ i ∈ vec1.keys ∩ vec2.keys, (vec1.val i : ℝ) * (vec2.val i : ℝ)
  let sum1 : ℝ := ∑ i ∈ vec1.keys, (vec1.val i : ℝ) ^ 2
  let sum2 : ℝ := ∑ i ∈ vec2.keys, (vec2.val i : ℝ) ^ 2
  let denominator : ℝ := Real.sqrt sum1 * Real.sqrt sum2
  if denominator = 0 then 0 else numerator / denominator

/-- The list comprehension
`[text[i:i+n] for i in range(len(text)-n+1) if not " " in text[i:i+n]]`.
`List.range (length + 1 - n)` agrees with Python's `range(len(text)-n+1)`:
both are empty when `n` exceeds `len(text) + 1`. -/
def ngramsOf (text : String) (n : ℕ) : List String :=
  (List.range (text.toList.length + 1 - n)).filterMap (fun i =>
    let g := (text.toList.drop i).take n
    if (' ' : Char) ∈ g then none else some (String.mk g))

/-- Python `text_to_ngrams_vector(text, n)`: `Counter` of the n-gram list,
i.e. the set of n-grams that occur, each mapped to its number of
occurrences. -/
def text_to_ngrams_vector (text : String) (n : ℕ) : CountVec :=
  ⟨(ngramsOf text n).toFinset, fun s => ((ngramsOf text n).count s : ℤ)⟩

open Classical in
/-- Python `select_best_list(query, choices, score_cutoff)`: skip a choice
equal to `query`; otherwise score it against the query vector (both
vectorized with the default `n=2`) and yield it when the score reaches the
cutoff. -/
noncomputable def select_best_list (query : String) (choices : List String)
    (score_cutoff : ℝ) : List (String × ℝ) :=
  let query_vec := text_to_ngrams_vector query 2
  choices.filterMap (fun choice =>
    if query = choice then none
    else
      let score := cosine_similar query_vec (text_to_ngrams_vector choice 2)
      if score_cutoff ≤ score then some (choice, score) else none)

open Classical in
/-- Python's `max(xs, key=lambda i: i[1])` on a nonempty list: keep the
current maximum and replace it only on a strictly greater key, so the first
of several tied maxima is returned. -/
noncomputable def maxByScore : String × ℝ → List (String × ℝ) → String × ℝ
  | best, [] => best
  | best, p :: ps => maxByScore (if best.2 < p.2 then p else best) ps

/-- Python `select_best_one(query, choices, score_cutoff)`: the maximum of
the matcher's output by score, or the sentinel `("", 0.0)` when the output
is empty (Python's `max` raises `ValueError` there, which is caught). -/
noncomputable def select_best_one (query : String) (choices : List String)
    (score_cutoff : ℝ) : String × ℝ :=
  match select_best_list query choices score_cutoff with
  | [] => ("", 0.0)
  | p :: ps => maxByScore p ps

open Classical in
/-- The Matcher's output as the spec words it: the choices in input order
that differ from the query, each paired with its cosine score, restricted
to the pairs whose score reaches the cutoff. -/
noncomputable def select_best_list_spec (query : String) (choices : List String)
    (score_cutoff : ℝ) : List (String × ℝ) :=
  ((choices.filter (fun choice => choice ≠ query)).map (fun choice =>
      (choice,
        cosine_similar (text_to_ngrams_vector query 2)
          (text_to_ngrams_vector choice 2)))).filter
    (fun p => score_cutoff ≤ p.2)

/-- Both metrics ignore the order of their arguments' keys; Jaccard is the
symmetric intersection-over-union count. -/
theorem jaccard_comm (a b : CountVec) : jaccard_index a b = jaccard_index b a := by
  simp only [jaccard_index]
  rw [Finset.inter_comm, Finset.union_comm]

/-- Cosine similarity is symmetric: the dot product and the product of the
norms are both commutative. -/
theorem cosine_comm (a b : CountVec) : cosine_similar a b = cosine_similar b a := by
  have hnum : ∑ i ∈ a.keys ∩ b.keys, (a.val i : ℝ) * (b.val i : ℝ)
      = ∑ i ∈ b.keys ∩ a.keys, (b.val i : ℝ) * (a.val i : ℝ) := by
    rw [Finset.inter_comm]
    exact Finset.sum_congr rfl fun i _ => mul_comm _ _
  have hden : Real.sqrt (∑ i ∈ a.keys, (a.val i : ℝ) ^ 2) *
        Real.sqrt (∑ i ∈ b.keys, (b.val i : ℝ) ^ 2)
      = Real.sqrt (∑ i ∈ b.keys, (b.val i : ℝ) ^ 2) *
        Real.sqrt (∑ i ∈ a.keys, (a.val i : ℝ) ^ 2) := mul_comm _ _
  simp only [cosine_similar, hnum, hden]

/-- The Jaccard index always lies in the unit interval. -/
theorem jaccard_bounds (vec1 vec2 : CountVec) :
    0 ≤ jaccard_index vec1 vec2 ∧ jaccard_index vec1 vec2 ≤ 1 := by
  simp only [jaccard_index]
  by_cases h : (vec1.keys ∪ vec2.keys).card = 0
  · rw [if_pos h]
    norm_num
  · rw [if_neg h]
    have hpos : (0 : ℚ) < ((vec1.keys ∪ vec2.keys).card : ℚ) := by
      exact_mod_cast Nat.pos_of_ne_zero h
    constructor
    · positivity
    · rw [div_le_one hpos]
      exact_mod_cast Finset.card_le_card (Finset.inter_subset_union)

/-- Cosine similarity of vectors with non-negative counts lies in the unit
interval, by the Cauchy-Schwarz inequality. -/
theorem cosine_bounds (vec1 vec2 : CountVec)
    (h1 : ∀ k ∈ vec1.keys, 0 ≤ vec1.val k) (h2 : ∀ k ∈ vec2.keys, 0 ≤ vec2.val k) :
    0 ≤ cosine_similar vec1 vec2 ∧ cosine_similar vec1 vec2 ≤ 1 := by
  simp only [cosine_similar]
  set num : ℝ := ∑ i ∈ vec1.keys ∩ vec2.keys, (vec1.val i : ℝ) * (vec2.val i : ℝ) with hnum
  set s1 : ℝ := ∑ i ∈ vec1.keys, (vec1.val i : ℝ) ^ 2 with hs1
  set s2 : ℝ := ∑ i ∈ vec2.keys, (vec2.val i : ℝ) ^ 2 with hs2
  by_cases h : Real.sqrt s1 * Real.sqrt s2 = 0
  · rw [if_pos h]
    norm_num
  · rw [if_neg h]
    have hden_nonneg : 0 ≤ Real.sqrt s1 * Real.sqrt s2 :=
      mul_nonneg (Real.sqrt_nonneg _) (Real.sqrt_nonneg _)
    have hden_pos : 0 < Real.sqrt s1 * Real.sqrt s2 := lt_of_le_of_ne hden_nonneg (Ne.symm h)
    have hnum_nonneg : 0 ≤ num := by
      refine Finset.sum_nonneg fun i hi => ?_
      have hi1 := Finset.mem_inter.mp hi
      have a1 : (0 : ℝ) ≤ (vec1.val i : ℝ) := by exact_mod_cast h1 i hi1.1
      have a2 : (0 : ℝ) ≤ (vec2.val i : ℝ) := by exact_mod_cast h2 i hi1.2
      exact mul_nonneg a1 a2
    constructor
    · exact div_nonneg hnum_nonneg hden_nonneg
    · rw [div_le_one hden_pos]
      calc num ≤ Real.sqrt (∑ i ∈ vec1.keys ∩ vec2.keys, (vec1.val i : ℝ) ^ 2) *
            Real.sqrt (∑ i ∈ vec1.keys ∩ vec2.keys, (vec2.val i : ℝ) ^ 2) :=
              Real.sum_mul_le_sqrt_mul_sqrt _ _ _
        _ ≤ Real.sqrt s1 * Real.sqrt s2 := by
            have m1 : ∑ i ∈ vec1.keys ∩ vec2.keys, (vec1.val i : ℝ) ^ 2 ≤ s1 :=
              Finset.sum_le_sum_of_subset_of_nonneg Finset.inter_subset_left
                (fun i _ _ => sq_nonneg _)
            have m2 : ∑ i ∈ vec1.keys ∩ vec2.keys, (vec2.val i : ℝ) ^ 2 ≤ s2 :=
              Finset.sum_le_sum_of_subset_of_nonneg Finset.inter_subset_right
                (fun i _ _ => sq_nonneg _)
            exact mul_le_mul (Real.sqrt_le_sqrt m1) (Real.sqrt_le_sqrt m2)
              (Real.sqrt_nonneg _) (Real.sqrt_nonneg _)

/-- A cosine score is `0` outright whenever the two key sets are disjoint:
the dot product is an empty sum, and both branches of the final guard
return `0`. -/
theorem cosine_similar_of_inter_empty (vec1 vec2 : CountVec)
    (h : vec1.keys ∩ vec2.keys = ∅) : cosine_similar vec1 vec2 = 0 := by
  simp only [cosine_similar, h, Finset.sum_empty, zero_div, ite_self]

/-- Python's first-max reduction: the result of `maxByScore b l` is an
element of `b :: l`, its score bounds every score in `b :: l`, and every
element strictly before it in `b :: l` has a strictly smaller score. -/
theorem maxByScore_first_max (l : List (String × ℝ)) :
    ∀ b : String × ℝ,
      maxByScore b l ∈ b :: l ∧
      (∀ p ∈ b :: l, p.2 ≤ (maxByScore b l).2) ∧
      ∃ l1 l2, b :: l = l1 ++ maxByScore b l :: l2 ∧
        ∀ p ∈ l1, p.2 < (maxByScore b l).2 := by
  induction l with
  | nil =>
    intro b
    refine ⟨by simp [maxByScore], ?_, [], [], by simp [maxByScore], by simp⟩
    intro p hp
    simp only [List.mem_singleton] at hp
    simp [hp, maxByScore]
  | cons q qs ih =>
    intro b
    obtain ⟨hmem, hle, l1, l2, hdec, hlt⟩ := ih (if b.2 < q.2 then q else b)
    have hrw : maxByScore b (q :: qs) = maxByScore (if b.2 < q.2 then q else b) qs := rfl
    set r := maxByScore (if b.2 < q.2 then q else b) qs with hr
    rw [hrw]
    by_cases h : b.2 < q.2
    · rw [if_pos h] at hmem hle hdec
      refine ⟨List.mem_cons_of_mem b hmem, ?_, b :: l1, l2, by rw [List.cons_append, hdec], ?_⟩
      · intro p hp
        rcases List.mem_cons.mp hp with hp | hp
        · subst hp
          exact le_of_lt (lt_of_lt_of_le h (hle q (List.mem_cons_self q qs)))
        · exact hle p hp
      · intro p hp
        rcases List.mem_cons.mp hp with hp | hp
        · subst hp
          exact lt_of_lt_of_le h (hle q (List.mem_cons_self q qs))
        · exact hlt p hp
    · rw [if_neg h] at hmem hle hdec
      have hq : q.2 ≤ b.2 := le_of_not_lt h
      have hb : b.2 ≤ r.2 := hle b (List.mem_cons_self b qs)
      refine ⟨?_, ?_, ?_⟩
      · rcases List.mem_cons.mp hmem with hm | hm
        · rw [hm]
          exact List.mem_cons_self b (q :: qs)
        · exact List.mem_cons_of_mem b (List.mem_cons_of_mem q hm)
      · intro p hp
        rcases List.mem_cons.mp hp with hp | hp
        · subst hp
          exact hb
        rcases List.mem_cons.mp hp with hp | hp
        · subst hp
          exact le_trans hq hb
        · exact hle p (List.mem_cons_of_mem b hp)
      · cases l1 with
        | nil =>
          simp only [List.nil_append] at hdec
          obtain ⟨hb', hqs⟩ := List.cons_eq_cons.mp hdec
          refine ⟨[], q :: qs, ?_, by simp⟩
          rw [List.nil_append, ← hb']
        | cons x l1x =>
          rw [List.cons_append] at hdec
          obtain ⟨hx, hqs⟩ := List.cons_eq_cons.mp hdec
          refine ⟨b :: q :: l1x, l2, ?_, ?_⟩
          · rw [List.cons_append, List.cons_append, hqs]
          · intro p hp
            have hbx : b ∈ x :: l1x := by
              rw [hx]
              exact List.mem_cons_self x l1x
            have hblt : b.2 < r.2 := hlt b hbx
            rcases List.mem_cons.mp hp with hp | hp
            · subst hp
              exact hblt
            rcases List.mem_cons.mp hp with hp | hp
            · subst hp
              exact lt_of_le_of_lt hq hblt
            · exact hlt p (List.mem_cons_of_mem x hp)

/-- The matcher skips a choice equal to the query without scoring it. -/
theorem select_best_list_economics_self :
    select_best_list "economics" ["economics"] (0.70 : ℝ) = [] := by
  simp only [select_best_list, List.filterMap_cons, List.filterMap_nil]
  rw [if_pos trivial]

/-- Concrete run of the matcher: the two bigram sets of `"ab"` and `"cd"`
are disjoint, so the single yielded pair scores `0` and passes a cutoff of
`0`. -/
theorem select_best_list_ab_cd :
    select_best_list "ab" ["cd"] 0 = [("cd", 0)] := by
  have hinter : (text_to_ngrams_vector "ab" 2).keys ∩ (text_to_ngrams_vector "cd" 2).keys
      = ∅ := by decide
  have hscore := cosine_similar_of_inter_empty _ _ hinter
  simp only [select_best_list, List.filterMap_cons, List.filterMap_nil]
  rw [if_neg (by decide), hscore, if_pos le_rfl]

/-- Claim C1: `select_best_one` returns a pair yielded by
`select_best_list`, its score is maximal among all yielded pairs, and every
pair yielded before it has a strictly smaller score, so among equal-maximum
scores the first one in `choices` order is returned. -/
theorem select_best_one_is_first_max (query : String) (choices : List String)
    (score_cutoff : ℝ) (h : select_best_list query choices score_cutoff ≠ []) :
    select_best_one query choices score_cutoff ∈ select_best_list query choices score_cutoff ∧
    (∀ p ∈ select_best_list query choices score_cutoff,
      p.2 ≤ (select_best_one query choices score_cutoff).2) ∧
    ∃ l1 l2, select_best_list query choices score_cutoff =
        l1 ++ select_best_one query choices score_cutoff :: l2 ∧
      ∀ p ∈ l1, p.2 < (select_best_one query choices score_cutoff).2 := by
  rcases hl : select_best_list query choices score_cutoff with _ | ⟨p, ps⟩
  · exact absurd hl h
  · have hone : select_best_one query choices score_cutoff = maxByScore p ps := by
      unfold select_best_one
      rw [hl]
    rw [hone]
    exact maxByScore_first_max ps p

/-- Witness for C1 on the concrete input `("ab", ["cd"], 0)`, whose matcher
output is the nonempty list `[("cd", 0)]`. -/
theorem select_best_one_is_first_max_witness :
    select_best_one "ab" ["cd"] 0 ∈ select_best_list "ab" ["cd"] 0 ∧
    (∀ p ∈ select_best_list "ab" ["cd"] 0, p.2 ≤ (select_best_one "ab" ["cd"] 0).2) ∧
    ∃ l1 l2, select_best_list "ab" ["cd"] 0 =
        l1 ++ select_best_one "ab" ["cd"] 0 :: l2 ∧
      ∀ p ∈ l1, p.2 < (select_best_one "ab" ["cd"] 0).2 :=
  select_best_one_is_first_max "ab" ["cd"] 0
    (by rw [select_best_list_ab_cd]; exact List.cons_ne_nil _ _)

/-- Claim C2: the matcher yields exactly the choices different from the
query, in input order, paired with their `n=2` cosine scores and restricted
to scores at or above the cutoff; a choice equal to the query is never
yielded. -/
theorem select_best_list_yields_spec (query : String) (choices : List String)
    (score_cutoff : ℝ) :
    select_best_list query choices score_cutoff =
      select_best_list_spec query choices score_cutoff ∧
    ∀ p ∈ select_best_list query choices score_cutoff, p.1 ≠ query := by
  have hmain : ∀ cs : List String, select_best_list query cs score_cutoff =
      select_best_list_spec query cs score_cutoff := by
    intro cs
    induction cs with
    | nil => rfl
    | cons c cs ih =>
      by_cases hqc : query = c
      · have h1 : select_best_list query (c :: cs) score_cutoff
            = select_best_list query cs score_cutoff := by
          simp only [select_best_list, List.filterMap_cons]
          rw [if_pos hqc]
        have h2 : select_best_list_spec query (c :: cs) score_cutoff
            = select_best_list_spec query cs score_cutoff := by
          simp only [select_best_list_spec, List.filter_cons]
          rw [if_neg (by simp [hqc])]
        rw [h1, h2, ih]
      · by_cases hs : score_cutoff ≤
            cosine_similar (text_to_ngrams_vector query 2) (text_to_ngrams_vector c 2)
        · have h1 : select_best_list query (c :: cs) score_cutoff
              = (c, cosine_similar (text_to_ngrams_vector query 2)
                  (text_to_ngrams_vector c 2)) :: select_best_list query cs score_cutoff := by
            simp only [select_best_list, List.filterMap_cons]
            rw [if_neg hqc, if_pos hs]
          have h2 : select_best_list_spec query (c :: cs) score_cutoff
              = (c, cosine_similar (text_to_ngrams_vector query 2)
                  (text_to_ngrams_vector c 2)) :: select_best_list_spec query cs score_cutoff := by
            simp only [select_best_list_spec, List.filter_cons]
            rw [if_pos (by simp only [ne_eq, decide_eq_true_eq]; exact fun h => hqc h.symm),
              List.map_cons, List.filter_cons, if_pos (by simpa using hs)]
          rw [h1, h2, ih]
        · have h1 : select_best_list query (c :: cs) score_cutoff
              = select_best_list query cs score_cutoff := by
            simp only [select_best_list, List.filterMap_cons]
            rw [if_neg hqc, if_neg hs]
          have h2 : select_best_list_spec query (c :: cs) score_cutoff
              = select_best_list_spec query cs score_cutoff := by
            simp only [select_best_list_spec, List.filter_cons]
            rw [if_pos (by simp only [ne_eq, decide_eq_true_eq]; exact fun h => hqc h.symm),
              List.map_cons, List.filter_cons, if_neg (by simpa using hs)]
          rw [h1, h2, ih]
  refine ⟨hmain choices, ?_⟩
  intro p hp
  rw [hmain choices] at hp
  simp only [select_best_list_spec, List.mem_filter, List.mem_map, List.mem_filter] at hp
  obtain ⟨⟨c, ⟨_, hcq⟩, hpc⟩, _⟩ := hp
  rw [← hpc]
  simpa using hcq

/-- Witness for C2 at the concrete input `("ab", ["cd"], 0)`. -/
theorem select_best_list_yields_spec_witness :
    select_best_list "ab" ["cd"] 0 = select_best_list_spec "ab" ["cd"] 0 ∧
    ∀ p ∈ select_best_list "ab" ["cd"] 0, p.1 ≠ "ab" :=
  select_best_list_yields_spec "ab" ["cd"] 0

/-- Claim C3: when the matcher yields nothing, `select_best_one` returns
the sentinel `("", 0.0)` (Python's `ValueError` from `max` is caught). -/
theorem select_best_one_sentinel (query : String) (choices : List String)
    (score_cutoff : ℝ) (h : select_best_list query choices score_cutoff = []) :
    select_best_one query choices score_cutoff = ("", 0.0) := by
  unfold select_best_one
  rw [h]

/-- Witness for C3 on the spec's own example: a choices list holding only
the query itself yields nothing. -/
theorem select_best_one_sentinel_witness :
    select_best_one "economics" ["economics"] (0.70 : ℝ) = ("", 0.0) :=
  select_best_one_sentinel "economics" ["economics"] (0.70 : ℝ)
    select_best_list_economics_self

/-- Counterexample to C4 as stated: the vectorizer only filters the space
character, so for the text `"a\tb"` the key `"a\t"` is produced although it
contains the tab, a whitespace character. -/
theorem ngram_key_whitespace_counterexample :
    "a\t" ∈ (text_to_ngrams_vector "a\tb" 2).keys ∧
    '\t' ∈ "a\t".toList ∧ ('\t').isWhitespace = true := by
  decide

/-- Claim C4 (amended): every key of `text_to_ngrams_vector text n` is a
contiguous substring of `text` of length exactly `n` containing no space
character `' '` (other whitespace characters are not excluded). -/
theorem ngram_keys_substring_no_space (text : String) (n : ℕ) (k : String)
    (hn : 1 ≤ n) (hk : k ∈ (text_to_ngrams_vector text n).keys) :
    k.toList.length = n ∧
    (∃ l1 l2, text.toList = l1 ++ k.toList ++ l2) ∧
    (' ' : Char) ∉ k.toList := by
  clear hn
  have hk' : k ∈ ngramsOf text n := by
    simpa [text_to_ngrams_vector] using hk
  rw [ngramsOf, List.mem_filterMap] at hk'
  obtain ⟨i, hi, heq⟩ := hk'
  rw [List.mem_range] at hi
  by_cases hsp : (' ' : Char) ∈ (text.toList.drop i).take n
  · simp [hsp] at heq
    exact absurd hsp heq.1
  · simp only [hsp, reduceIte, Option.some.injEq] at heq
    have hkl : k.toList = (text.toList.drop i).take n := by
      rw [← heq]
      rfl
    refine ⟨?_, ⟨text.toList.take i, (text.toList.drop i).drop n, ?_⟩, ?_⟩
    · rw [hkl, List.length_take, List.length_drop]
      omega
    · rw [hkl, List.append_assoc, List.take_append_drop, List.take_append_drop]
    · rw [hkl]
      exact hsp

/-- Witness for the amended C4: the key `"ec"` of the spec's `"economics"`
example. -/
theorem ngram_keys_substring_no_space_witness :
    (1 ≤ 2 ∧ "ec" ∈ (text_to_ngrams_vector "economics" 2).keys) ∧
    "ec".toList.length = 2 ∧
    (∃ l1 l2, "economics".toList = l1 ++ "ec".toList ++ l2) ∧
    (' ' : Char) ∉ "ec".toList :=
  ⟨⟨by decide, by decide⟩,
    ngram_keys_substring_no_space "economics" 2 "ec" (by decide) (by decide)⟩

/-- Claim C5: `cosine_similar` computes the shared-key dot product divided
by the product of the two Euclidean norms, and returns `0` whenever that
denominator is `0`. -/
theorem cosine_similar_eq_formula (vec1 vec2 : CountVec) :
    cosine_similar vec1 vec2 =
      (∑ i ∈ vec1.keys ∩ vec2.keys, (vec1.val i : ℝ) * (vec2.val i : ℝ)) /
        (Real.sqrt (∑ i ∈ vec1.keys, (vec1.val i : ℝ) ^ 2) *
          Real.sqrt (∑ i ∈ vec2.keys, (vec2.val i : ℝ) ^ 2)) ∧
    (Real.sqrt (∑ i ∈ vec1.keys, (vec1.val i : ℝ) ^ 2) *
        Real.sqrt (∑ i ∈ vec2.keys, (vec2.val i : ℝ) ^ 2) = 0 →
      cosine_similar vec1 vec2 = 0) := by
  constructor
  · simp only [cosine_similar]
    by_cases h : Real.sqrt (∑ i ∈ vec1.keys, (vec1.val i : ℝ) ^ 2) *
        Real.sqrt (∑ i ∈ vec2.keys, (vec2.val i : ℝ) ^ 2) = 0
    · rw [if_pos h, h, div_zero]
    · rw [if_neg h]
  · intro h
    simp only [cosine_similar]
    rw [if_pos h]

/-- Witness for C5 at two empty count vectors, where the denominator is
zero. -/
theorem cosine_similar_eq_formula_witness :
    cosine_similar (CountVec.mk ∅ fun _ => 0) (CountVec.mk ∅ fun _ => 0) =
      (∑ i ∈ (CountVec.mk ∅ fun _ => (0 : ℤ)).keys ∩ (CountVec.mk ∅ fun _ => (0 : ℤ)).keys,
          ((CountVec.mk ∅ fun _ => (0 : ℤ)).val i : ℝ) *
            ((CountVec.mk ∅ fun _ => (0 : ℤ)).val i : ℝ)) /
        (Real.sqrt (∑ i ∈ (CountVec.mk ∅ fun _ => (0 : ℤ)).keys,
            ((CountVec.mk ∅ fun _ => (0 : ℤ)).val i : ℝ) ^ 2) *
          Real.sqrt (∑ i ∈ (CountVec.mk ∅ fun _ => (0 : ℤ)).keys,
            ((CountVec.mk ∅ fun _ => (0 : ℤ)).val i : ℝ) ^ 2)) ∧
    (Real.sqrt (∑ i ∈ (CountVec.mk ∅ fun _ => (0 : ℤ)).keys,
          ((CountVec.mk ∅ fun _ => (0 : ℤ)).val i : ℝ) ^ 2) *
        Real.sqrt (∑ i ∈ (CountVec.mk ∅ fun _ => (0 : ℤ)).keys,
          ((CountVec.mk ∅ fun _ => (0 : ℤ)).val i : ℝ) ^ 2) = 0 →
      cosine_similar (CountVec.mk ∅ fun _ => 0) (CountVec.mk ∅ fun _ => 0) = 0) :=
  cosine_similar_eq_formula (CountVec.mk ∅ fun _ => 0) (CountVec.mk ∅ fun _ => 0)

/-- Claim C6: `jaccard_index` is intersection-over-union of the key sets,
depends only on key presence, and is `0` when the union of keys is empty. -/
theorem jaccard_index_eq_formula (vec1 vec2 : CountVec) :
    jaccard_index vec1 vec2 =
      ((vec1.keys ∩ vec2.keys).card : ℚ) / ((vec1.keys ∪ vec2.keys).card : ℚ) ∧
    (∀ w1 w2 : CountVec, w1.keys = vec1.keys → w2.keys = vec2.keys →
      jaccard_index w1 w2 = jaccard_index vec1 vec2) ∧
    (vec1.keys ∪ vec2.keys = ∅ → jaccard_index vec1 vec2 = 0) := by
  refine ⟨?_, ?_, ?_⟩
  · simp only [jaccard_index]
    by_cases h : (vec1.keys ∪ vec2.keys).card = 0
    · rw [if_pos h, h]
      simp
    · rw [if_neg h]
  · intro w1 w2 h1 h2
    simp only [jaccard_index, h1, h2]
  · intro h
    simp only [jaccard_index, h]
    simp

/-- Witness for C6 at two concrete one-key count vectors with different
counts. -/
theorem jaccard_index_eq_formula_witness :
    jaccard_index (CountVec.mk {"a"} fun _ => 2) (CountVec.mk {"a"} fun _ => 3) =
      (((CountVec.mk {"a"} fun _ => (2 : ℤ)).keys ∩
          (CountVec.mk {"a"} fun _ => (3 : ℤ)).keys).card : ℚ) /
        (((CountVec.mk {"a"} fun _ => (2 : ℤ)).keys ∪
          (CountVec.mk {"a"} fun _ => (3 : ℤ)).keys).card : ℚ) ∧
    (∀ w1 w2 : CountVec, w1.keys = (CountVec.mk {"a"} fun _ => (2 : ℤ)).keys →
      w2.keys = (CountVec.mk {"a"} fun _ => (3 : ℤ)).keys →
      jaccard_index w1 w2 =
        jaccard_index (CountVec.mk {"a"} fun _ => 2) (CountVec.mk {"a"} fun _ => 3)) ∧
    ((CountVec.mk {"a"} fun _ => (2 : ℤ)).keys ∪
        (CountVec.mk {"a"} fun _ => (3 : ℤ)).keys = ∅ →
      jaccard_index (CountVec.mk {"a"} fun _ => 2) (CountVec.mk {"a"} fun _ => 3) = 0) :=
  jaccard_index_eq_formula (CountVec.mk {"a"} fun _ => 2) (CountVec.mk {"a"} fun _ => 3)

/-- Claim C7: for count vectors with non-negative counts both similarity
scores lie in the closed unit interval. -/
theorem similarity_scores_unit_interval (vec1 vec2 : CountVec)
    (h1 : ∀ k ∈ vec1.keys, 0 ≤ vec1.val k) (h2 : ∀ k ∈ vec2.keys, 0 ≤ vec2.val k) :
    (0 ≤ jaccard_index vec1 vec2 ∧ jaccard_index vec1 vec2 ≤ 1) ∧
    (0 ≤ cosine_similar vec1 vec2 ∧ cosine_similar vec1 vec2 ≤ 1) :=
  ⟨jaccard_bounds vec1 vec2, cosine_bounds vec1 vec2 h1 h2⟩

/-- Witness for C7 at the vectors of `"ab"` and `"economics"`, whose counts
are non-negative by computation. -/
theorem similarity_scores_unit_interval_witness :
    ((∀ k ∈ (text_to_ngrams_vector "ab" 2).keys,
        0 ≤ (text_to_ngrams_vector "ab" 2).val k) ∧
      (∀ k ∈ (text_to_ngrams_vector "economics" 2).keys,
        0 ≤ (text_to_ngrams_vector "economics" 2).val k)) ∧
    (0 ≤ jaccard_index (text_to_ngrams_vector "ab" 2) (text_to_ngrams_vector "economics" 2) ∧
      jaccard_index (text_to_ngrams_vector "ab" 2) (text_to_ngrams_vector "economics" 2) ≤ 1) ∧
    (0 ≤ cosine_similar (text_to_ngrams_vector "ab" 2) (text_to_ngrams_vector "economics" 2) ∧
      cosine_similar (text_to_ngrams_vector "ab" 2) (text_to_ngrams_vector "economics" 2) ≤ 1) :=
  ⟨⟨by decide, by decide⟩,
    similarity_scores_unit_interval (text_to_ngrams_vector "ab" 2)
      (text_to_ngrams_vector "economics" 2) (by decide) (by decide)⟩

/-- Claim C8: both metrics are symmetric in their two arguments, on all
count vectors and in particular on the vectorizations of any two strings. -/
theorem similarity_symmetric (a b : CountVec) (s t : String) :
    jaccard_index a b = jaccard_index b a ∧
    cosine_similar a b = cosine_similar b a ∧
    jaccard_index (text_to_ngrams_vector s 2) (text_to_ngrams_vector t 2)
      = jaccard_index (text_to_ngrams_vector t 2) (text_to_ngrams_vector s 2) ∧
    cosine_similar (text_to_ngrams_vector s 2) (text_to_ngrams_vector t 2)
      = cosine_similar (text_to_ngrams_vector t 2) (text_to_ngrams_vector s 2) :=
  ⟨jaccard_comm a b, cosine_comm a b, jaccard_comm _ _, cosine_comm _ _⟩

/-- Witness for C8 at concrete vectors and strings. -/
theorem similarity_symmetric_witness :
    jaccard_index (CountVec.mk {"a"} fun _ => 1) (CountVec.mk {"b"} fun _ => 1)
      = jaccard_index (CountVec.mk {"b"} fun _ => 1) (CountVec.mk {"a"} fun _ => 1) ∧
    cosine_similar (CountVec.mk {"a"} fun _ => 1) (CountVec.mk {"b"} fun _ => 1)
      = cosine_similar (CountVec.mk {"b"} fun _ => 1) (CountVec.mk {"a"} fun _ => 1) ∧
    jaccard_index (text_to_ngrams_vector "ab" 2) (text_to_ngrams_vector "cd" 2)
      = jaccard_index (text_to_ngrams_vector "cd" 2) (text_to_ngrams_vector "ab" 2) ∧
    cosine_similar (text_to_ngrams_vector "ab" 2) (text_to_ngrams_vector "cd" 2)
      = cosine_similar (text_to_ngrams_vector "cd" 2) (text_to_ngrams_vector "ab" 2) :=
  similarity_symmetric (CountVec.mk {"a"} fun _ => 1) (CountVec.mk {"b"} fun _ => 1) "ab" "cd"

/-- Counterexample to C9 as stated: the non-empty count vector mapping the
key `"a"` to the count `0` has cosine self-similarity `0`, not `1`, because
the norm product in the denominator vanishes. -/
theorem self_similarity_counterexample :
    (CountVec.mk {"a"} fun _ => 0).keys ≠ ∅ ∧
    cosine_similar (CountVec.mk {"a"} fun _ => 0) (CountVec.mk {"a"} fun _ => 0) ≠ 1 := by
  constructor
  · decide
  · simp [cosine_similar]

/-- Claim C9 (amended): a non-empty count vector has Jaccard
self-similarity `1`, and cosine self-similarity `1` provided some key
carries a non-zero count. -/
theorem self_similarity_eq_one (v : CountVec) (hne : v.keys ≠ ∅) :
    jaccard_index v v = 1 ∧
    ((∃ k ∈ v.keys, v.val k ≠ 0) → cosine_similar v v = 1) := by
  constructor
  · simp only [jaccard_index, Finset.inter_self, Finset.union_self]
    have h : v.keys.card ≠ 0 := by
      simpa [Finset.card_eq_zero] using hne
    rw [if_neg h]
    exact div_self (by exact_mod_cast h)
  · rintro ⟨k, hk, hk0⟩
    simp only [cosine_similar, Finset.inter_self]
    have hsum : ∑ i ∈ v.keys, (v.val i : ℝ) * (v.val i : ℝ)
        = ∑ i ∈ v.keys, (v.val i : ℝ) ^ 2 :=
      Finset.sum_congr rfl fun i _ => (sq ((v.val i : ℝ))).symm
    have hpos : 0 < ∑ i ∈ v.keys, (v.val i : ℝ) ^ 2 := by
      refine Finset.sum_pos' (fun i _ => sq_nonneg _) ⟨k, hk, ?_⟩
      have hc : ((v.val k : ℝ)) ≠ 0 := by exact_mod_cast hk0
      positivity
    have hden : Real.sqrt (∑ i ∈ v.keys, (v.val i : ℝ) ^ 2) *
        Real.sqrt (∑ i ∈ v.keys, (v.val i : ℝ) ^ 2)
        = ∑ i ∈ v.keys, (v.val i : ℝ) ^ 2 := Real.mul_self_sqrt hpos.le
    rw [hsum, hden, if_neg hpos.ne.symm]
    exact div_self hpos.ne.symm

/-- Witness for the amended C9 at the one-key count vector with count 1. -/
theorem self_similarity_eq_one_witness :
    (CountVec.mk {"a"} fun _ => (1 : ℤ)).keys ≠ ∅ ∧
    (jaccard_index (CountVec.mk {"a"} fun _ => 1) (CountVec.mk {"a"} fun _ => 1) = 1 ∧
      ((∃ k ∈ (CountVec.mk {"a"} fun _ => (1 : ℤ)).keys,
          (CountVec.mk {"a"} fun _ => (1 : ℤ)).val k ≠ 0) →
        cosine_similar (CountVec.mk {"a"} fun _ => 1) (CountVec.mk {"a"} fun _ => 1) = 1)) :=
  ⟨by decide, self_similarity_eq_one (CountVec.mk {"a"} fun _ => 1) (by decide)⟩

/-- Claim C10: every key present in a vectorizer output carries a count of
at least `1`, since `Counter` only stores elements that occur in the n-gram
list. -/
theorem ngram_counts_positive (text : String) (n : ℕ) (k : String)
    (hn : 1 ≤ n) (hk : k ∈ (text_to_ngrams_vector text n).keys) :
    1 ≤ (text_to_ngrams_vector text n).val k := by
  clear hn
  have hk' : k ∈ ngramsOf text n := by
    simpa [text_to_ngrams_vector] using hk
  have hc : 0 < (ngramsOf text n).count k := List.count_pos_iff.mpr hk'
  simp only [text_to_ngrams_vector]
  exact_mod_cast hc

/-- Witness for C10 at the key `"ic"` of the vector of `"economics"`. -/
theorem ngram_counts_positive_witness :
    (1 ≤ 2 ∧ "ic" ∈ (text_to_ngrams_vector "economics" 2).keys) ∧
    1 ≤ (text_to_ngrams_vector "economics" 2).val "ic" :=
  ⟨⟨by decide, by decide⟩,
    ngram_counts_positive "economics" 2 "ic" (by decide) (by decide)⟩
